import Mathlib

/-!
Verification of the chunking / classification-mapping / context-budgeting /
incremental-assembly pipeline of the Prospectus-AI repository.

The development shallowly embeds the Python functions of `agent1.py` and
`agent2.py` into Lean:

* text is modelled as `List Char` (or `String` where the Python value is a
  whole string held opaque); Python's truncating clamp `if i < 0: i = 0` is
  exactly `Nat` subtraction;
* `chunk_text` (agent1.py, lines 69-88) is embedded as a fuel-indexed loop
  `chunkGo`: one unit of fuel is one iteration of the Python `while` loop, so
  a run of the Python loop that terminates in `n` iterations is reproduced by
  any fuel `≥ n`, and a diverging run is visible as the trace growing with
  fuel;
* the file-system section store of `agent2.py` is modelled as a list of
  `(stem, content)` records (`glob("section_*.md")` order is the list order;
  later entries overwrite earlier ones on the same matched id, as the Python
  `for`-loop over the glob does);
* the external Qwen generation call is an opaque parameter
  `gen : String → String`, exactly the spec's "opaque function
  generate(prompt) -> text" boundary.
-/

set_option maxRecDepth 100000
set_option maxHeartbeats 4000000

/-! ## Agent1 chunker (agent1.py) -/

/-- The whitespace set of Python's `str.strip()`: exactly the 29 code
points for which `str.isspace()` is true in CPython — the ASCII whitespace
`\t \n \v \f \r`, the separators `\x1c`-`\x1f`, the space, next line `\x85`,
no-break space `\xa0`, and the Unicode space/line/paragraph separators. -/
def isPySpace (c : Char) : Bool :=
  c = '\t' || c = '\n' || c = '\x0B' || c = '\x0C' || c = '\r' ||
  c = '\x1C' || c = '\x1D' || c = '\x1E' || c = '\x1F' || c = ' ' ||
  c = '\x85' || c = '\xA0' || c = '\u1680' ||
  c = '\u2000' || c = '\u2001' || c = '\u2002' || c = '\u2003' || c = '\u2004' ||
  c = '\u2005' || c = '\u2006' || c = '\u2007' || c = '\u2008' || c = '\u2009' ||
  c = '\u200A' || c = '\u2028' || c = '\u2029' || c = '\u202F' || c = '\u205F' ||
  c = '\u3000'

/-- Python `s.strip()`: drop leading and trailing whitespace. -/
def pyStrip (l : List Char) : List Char :=
  ((l.dropWhile isPySpace).reverse.dropWhile isPySpace).reverse

/-- `re.sub(r"\r", "\n", text)`: every carriage return becomes a newline. -/
def crToNl (l : List Char) : List Char :=
  l.map (fun c => if c = '\r' then '\n' else c)

/-- `re.sub(r"[ \t]+\n", "\n", s)`: delete runs of spaces/tabs that
immediately precede a newline.  Processing from the right, a space or tab is
dropped whenever the already-processed suffix starts with a newline, which
deletes exactly the maximal `[ \t]+` run before each `\n`. -/
def dropSpaceTabBeforeNl : List Char → List Char
  | [] => []
  | c :: rest =>
    let r := dropSpaceTabBeforeNl rest
    if (c = ' ' || c = '\t') && r.head? = some '\n' then r else c :: r

/-- `re.sub(r"\n{3,}", "\n\n", s)`: collapse runs of three or more newlines
to exactly two.  Processing from the right, a newline is dropped whenever two
newlines already follow it. -/
def collapseNls : List Char → List Char
  | [] => []
  | c :: rest =>
    let r := collapseNls rest
    if c = '\n' && r.take 2 = ['\n', '\n'] then r else c :: r

/-- The normalization performed at the top of `chunk_text` (agent1.py 70-72):
`cleaned = re.sub(r"\r", "\n", text).strip()`;
`cleaned = re.sub(r"[ \t]+\n", "\n", cleaned)`;
`cleaned = re.sub(r"\n{3,}", "\n\n", cleaned).strip()`. -/
def cleanText (l : List Char) : List Char :=
  pyStrip (collapseNls (dropSpaceTabBeforeNl (pyStrip (crToNl l))))

/-- The `while i < len(cleaned)` loop of `chunk_text` (agent1.py 76-88),
fuel-indexed: each unit of fuel is one loop iteration.  Per iteration:
`end = min(i + max_chars, len(cleaned))`; the slice `cleaned[i:end]` is
stripped and emitted if non-empty; `i = end - overlap` clamped at 0 (`Nat`
subtraction); the loop breaks when `end >= len(cleaned)`. -/
def chunkGo (cleaned : List Char) (maxChars overlap : Nat) : Nat → Nat → List (List Char)
  | 0, _ => []
  | fuel + 1, i =>
    if i < cleaned.length then
      if pyStrip (List.take (min (i + maxChars) cleaned.length - i) (List.drop i cleaned)) = [] then
        (if cleaned.length ≤ min (i + maxChars) cleaned.length then []
         else chunkGo cleaned maxChars overlap fuel (min (i + maxChars) cleaned.length - overlap))
      else
        pyStrip (List.take (min (i + maxChars) cleaned.length - i) (List.drop i cleaned)) ::
          (if cleaned.length ≤ min (i + maxChars) cleaned.length then []
           else chunkGo cleaned maxChars overlap fuel (min (i + maxChars) cleaned.length - overlap))
    else []

/-- The same loop, but recording the raw (unstripped, unfiltered) window
slice `cleaned[i:end]` taken at each iteration. -/
def rawChunks (cleaned : List Char) (maxChars overlap : Nat) : Nat → Nat → List (List Char)
  | 0, _ => []
  | fuel + 1, i =>
    if i < cleaned.length then
      List.take (min (i + maxChars) cleaned.length - i) (List.drop i cleaned) ::
        (if cleaned.length ≤ min (i + maxChars) cleaned.length then []
         else rawChunks cleaned maxChars overlap fuel (min (i + maxChars) cleaned.length - overlap))
    else []

/-- The same loop, recording the value of the cursor `i` at the start of each
iteration. -/
def chunkTrace (cleaned : List Char) (maxChars overlap : Nat) : Nat → Nat → List Nat
  | 0, _ => []
  | fuel + 1, i =>
    if i < cleaned.length then
      i :: (if cleaned.length ≤ min (i + maxChars) cleaned.length then []
            else chunkTrace cleaned maxChars overlap fuel (min (i + maxChars) cleaned.length - overlap))
    else []

/-- `chunk_text(text, max_chars, overlap)` (agent1.py 69-88).  When
`max_chars > overlap` the cursor advances by at least one character per
iteration, so fuel `length + 1` is enough for the loop to run to completion;
when `overlap >= max_chars` the Python loop diverges and the fuel merely
truncates the infinite run (see `chunkGo` directly for that case). -/
def chunk_text (text : List Char) (maxChars overlap : Nat) : List (List Char) :=
  chunkGo (cleanText text) maxChars overlap ((cleanText text).length + 1) 0

/-- Concatenation of fragments "with the overlap regions removed": the first
fragment whole, each later fragment with its first `overlap` characters
(which duplicate the previous fragment's tail) removed. -/
def dropOverlaps (overlap : Nat) (l : List (List Char)) : List Char :=
  (l.map (List.drop overlap)).flatten

/-- Reconstruction of the source text from the fragment list. -/
def reconstruct (overlap : Nat) : List (List Char) → List Char
  | [] => []
  | c :: cs => c ++ dropOverlaps overlap cs

/-! ## Agent2 taxonomy and chunk selection (agent2.py) -/

/-- The output taxonomy `SECTIONS` of agent2.py (lines 29-62): 25
output-section identifiers with display names, in canonical order. -/
def SECTIONS : List (String × String) := [
  ("ExpectedTimetable", "Expected Timetable"),
  ("Contents", "Contents"),
  ("Summary", "Summary"),
  ("Definitions", "Definitions"),
  ("Glossary", "Glossary of Technical Terms"),
  ("ForwardLooking", "Forward-Looking Statements"),
  ("RiskFactors", "Risk Factors"),
  ("Waivers", "Waivers from Strict Compliance with Listing Rules (Waivers and Exemptions)"),
  ("InfoProspectus", "Information about this Prospectus and the Global Offering"),
  ("DirectorsParties", "Directors and Parties Involved in the Global Offering"),
  ("CorporateInfo", "Corporate Information"),
  ("Regulation", "Regulation (Regulatory Overview)"),
  ("IndustryOverview", "Industry Overview"),
  ("HistoryReorg", "History, Reorganization, and Corporate Structure"),
  ("Business", "Business"),
  ("ContractualArrangements", "Contractual Arrangements (Variable Interest Entities)"),
  ("ControllingShareholders", "Relationship with Our Controlling Shareholders"),
  ("ConnectedTransactions", "Connected Transactions"),
  ("DirectorsSeniorMgmt", "Directors and Senior Management"),
  ("SubstantialShareholders", "Substantial Shareholders"),
  ("ShareCapital", "Share Capital"),
  ("FinancialInfo", "Financial Information"),
  ("UseOfProceeds", "Future Plans and Use of Proceeds"),
  ("Underwriting", "Underwriting"),
  ("GlobalOfferingStructure", "Structure of the Global Offering")
]

/-- `[s[0] for s in SECTIONS]`: the ordered output-section identifiers. -/
def sectionIds : List String := SECTIONS.map (fun s => s.1)

/-- `SECTION_TO_AGENT1_IDS` (agent2.py 65-91): output section id -> relevant
agent1 fine-grained category codes. -/
def SECTION_TO_AGENT1_IDS : List (String × List String) := [
  ("ExpectedTimetable", ["H", "E"]),
  ("Contents", ["A", "B", "C", "D", "E", "F", "G", "H"]),
  ("Summary", ["A", "B", "D", "E", "F"]),
  ("Definitions", ["A", "B", "C", "D", "E", "F", "G", "H"]),
  ("Glossary", ["A", "B"]),
  ("ForwardLooking", ["A", "B", "C", "D"]),
  ("RiskFactors", ["C"]),
  ("Waivers", ["G"]),
  ("InfoProspectus", ["H", "E"]),
  ("DirectorsParties", ["F", "H"]),
  ("CorporateInfo", ["A", "F", "G"]),
  ("Regulation", ["B", "G"]),
  ("IndustryOverview", ["B"]),
  ("HistoryReorg", ["A", "F"]),
  ("Business", ["A", "B"]),
  ("ContractualArrangements", ["A", "G"]),
  ("ControllingShareholders", ["F"]),
  ("ConnectedTransactions", ["F", "G"]),
  ("DirectorsSeniorMgmt", ["F"]),
  ("SubstantialShareholders", ["F", "E"]),
  ("ShareCapital", ["E"]),
  ("FinancialInfo", ["D"]),
  ("UseOfProceeds", ["E"]),
  ("Underwriting", ["H"]),
  ("GlobalOfferingStructure", ["H", "E"])
]

/-- Boolean list membership for strings (Python's `in`). -/
def memB (x : String) : List String → Bool
  | [] => false
  | y :: t => if x = y then true else memB x t

/-- `SECTION_TO_AGENT1_IDS.get(section_id, ["A",...,"H"])` (agent2.py 121):
the relevant fine-grained categories, falling back to all eight codes for an
unmapped output section. -/
def agent1IdsFor (sectionId : String) : List String :=
  match SECTION_TO_AGENT1_IDS.lookup sectionId with
  | some ids => ids
  | none => ["A", "B", "C", "D", "E", "F", "G", "H"]

/-- One RAG chunk record as read from `rag_chunks.jsonl`.  Fields the agent2
code accesses with `dict.get` are `Option`-valued (a missing key is `none`). -/
structure Chunk where
  section_id : Option String
  source_file : Option String
  text : Option String
deriving DecidableEq

/-- The filter predicate of `get_chunks_for_section` (agent2.py 122):
`c.get("section_id") in agent1_ids` (a missing key is `None`, which is never
in the list). -/
def chunkMatches (sectionId : String) (c : Chunk) : Bool :=
  match c.section_id with
  | some s => memB s (agent1IdsFor sectionId)
  | none => false

/-- The greedy budget loop of `get_chunks_for_section` (agent2.py 124-131):
accumulate chunks in order while the running total of `len(c.get("text",""))`
stays within `max_chars`; `break` at the first chunk that would exceed it. -/
def budgetTake (maxChars : Nat) : List Chunk → Nat → List Chunk
  | [], _ => []
  | c :: rest, total =>
    if maxChars < total + (c.text.getD "").length then []
    else c :: budgetTake maxChars rest (total + (c.text.getD "").length)

/-- `get_chunks_for_section(chunks, section_id, max_chars)` (agent2.py
113-132). -/
def get_chunks_for_section (chunks : List Chunk) (sectionId : String) (maxChars : Nat) : List Chunk :=
  if chunks.isEmpty then []
  else budgetTake maxChars (chunks.filter (chunkMatches sectionId)) 0

/-- Total character count of the selected chunks (sum of text lengths, not
counting separators). -/
def sumLen (l : List Chunk) : Nat :=
  (l.map (fun c => (c.text.getD "").length)).sum

/-- `"\n\n".join(parts)`-style joining. -/
def joinSep (sep : String) : List String → String
  | [] => ""
  | [x] => x
  | x :: xs => x ++ sep ++ joinSep sep xs

/-- `build_context(chunks)` (agent2.py 135-142): each chunk becomes a block
labeled with its 1-based index and source file, blocks joined by a blank
line. -/
def build_context (chunks : List Chunk) : String :=
  joinSep "\n\n" (chunks.enum.map (fun p =>
    "[" ++ toString (p.1 + 1) ++ "] (Source: " ++ p.2.source_file.getD "unknown" ++ ")\n" ++
      p.2.text.getD ""))

/-- `HKEX_FORMAT_INSTRUCTION` (agent2.py 153-161). -/
def HKEX_FORMAT_INSTRUCTION : String :=
  "\nCRITICAL FORMAT REQUIREMENTS (HKEX Listing Rules compliance):\n- Output in ENGLISH ONLY. No Chinese or other languages.\n- Follow HKEX (Hong Kong Stock Exchange) prospectus structure and style per HKEX Listing Rules Appendix 1 requirements.\n- Use formal, professional language suitable for a formal listing document.\n- Structure: clear headings (e.g. bold or numbered), sub-headings where appropriate; tables for numerical data; lists for definitions.\n- Tone: factual, balanced, no marketing hype. Directors\x27 responsibility statements and disclaimers where applicable.\n- Format: ready for use as a formal prospectus section; no placeholders like \"[to be completed]\" except where data is genuinely missing – use \"[Information not provided in the documents]\" in that case.\n"

/-- `build_prompt(section_id, section_name, requirements, context,
modification_instructions)` (agent2.py 164-198).  As in the Python source,
the section id itself is not interpolated into the prompt text. -/
def build_prompt (sectionId sname requirements context : String) (modification : Option String) : String :=
  let modNote : String :=
    match modification with
    | some m =>
      if pyStrip m.data = [] then ""
      else "\n\nUser modification request (incorporate these changes):\n" ++
        String.mk (pyStrip m.data) ++ "\n"
    | none => ""
  "You are drafting a prospectus section for a Hong Kong Stock Exchange (HKEX) listing. You must produce output that is usable as a formal prospectus section.\n" ++
    HKEX_FORMAT_INSTRUCTION ++
    "\n\nCRITICAL: Use ONLY data from the provided context (user-uploaded documents). Do NOT invent, fabricate, or hallucinate any facts, figures, names, or details. If information is not in the context, state \"[Information not provided in the documents]\" – never make it up.\n\nSection: " ++
    sname ++ "\n\nRequirements:\n" ++ requirements ++
    "\n\nContext from user-uploaded company documents (ONLY source of data):\n---\n" ++
    context ++ "\n---\n" ++ modNote ++
    "\nInstructions:\n1. Extract and use ONLY information that appears in the context above.\n2. Write ENTIRELY in English. Formal, factual tone.\n3. If the context lacks required information, explicitly state \"[Information not provided in the documents]\" – do not invent.\n4. Output in prose/paragraphs; use tables or lists where the data suits (e.g. financial data in tables, definitions as lists).\n5. Follow HKEX prospectus conventions: numbered paragraphs where appropriate, clear section structure.\n6. Do not include meta-commentary. Write the section content directly, ready for inclusion in the prospectus.\n\nSection content (English only):"

/-- `next((n for sid, n in SECTIONS if sid == section_id), section_id)`
(agent2.py 226, 269, 402): display name of a section id, defaulting to the
id itself. -/
def lookupName (sectionId : String) : String :=
  match SECTIONS.find? (fun p => p.1 == sectionId) with
  | some p => p.2
  | none => sectionId

/-- `generate_section` (agent2.py 215-241).  The external Qwen call
(`generate_with_llm`, routed through `model_name`/`model`/`tokenizer`) is the
opaque parameter `gen`; `reqMap` models
`requirements_map.get(section_id, {}).get("requirements", ...)` flattened to
the optional requirements string per section id. -/
def generate_section (gen : String → String) (sectionId : String) (chunks : List Chunk)
    (reqMap : String → Option String) (maxContextChars : Nat) (modification : Option String) : String :=
  let sname := lookupName sectionId
  let requirements := (reqMap sectionId).getD ("Write the " ++ sname ++ " section.")
  let sectionChunks := get_chunks_for_section chunks sectionId maxContextChars
  if sectionChunks.isEmpty then
    "[Section " ++ sectionId ++ ": " ++ sname ++ "]\n\nNo RAG chunks available for this section. Manual draft required."
  else
    gen (build_prompt sectionId sname requirements (build_context sectionChunks) modification)

/-! ## Agent2 incremental section store (agent2.py 244-345) -/

/-- `s.replace(" ", "_").replace("&", "and")` restricted to its single-char
patterns: expand each occurrence of the pattern character. -/
def replaceChar (p : Char) (rep : List Char) : List Char → List Char
  | [] => []
  | c :: t => (if c = p then rep else [c]) ++ replaceChar p rep t

/-- `section_name.replace(" ", "_").replace("&", "and")` (agent2.py 270, 309,
331, 403). -/
def safeName (sname : String) : String :=
  String.mk (replaceChar '&' ['a', 'n', 'd'] (replaceChar ' ' ['_'] sname.data))

/-- Boolean prefix test written out on `List Char`. -/
def isPrefB : List Char → List Char → Bool
  | [], _ => true
  | _ :: _, [] => false
  | a :: as, b :: bs => a = b && isPrefB as bs

/-- Python's substring test `needle in hay`. -/
def isInfB (needle : List Char) : List Char → Bool
  | [] => needle.isEmpty
  | c :: t => isPrefB needle (c :: t) || isInfB needle t

/-- First occurrence split: `content.split(sep, 1)` as
`some (before, after)`, or `none` when the separator does not occur. -/
def splitOnce (sep : List Char) : List Char → Option (List Char × List Char)
  | [] => none
  | c :: t =>
    if isPrefB sep (c :: t) then some ([], List.drop sep.length (c :: t))
    else
      match splitOnce sep t with
      | some p => some (c :: p.1, p.2)
      | none => none

/-- `content.split("\n\n", 1)[-1].strip()` (agent2.py 311) — identical to
`parts[-1].strip() if len(parts) > 1 else content.strip()` (agent2.py 336),
since with no separator `parts == [content]` and `parts[-1]` is `content`:
drop the header (everything up to the first blank line) and strip the rest. -/
def stripHeaderBody (content : String) : String :=
  match splitOnce ['\n', '\n'] content.data with
  | some p => String.mk (pyStrip p.2)
  | none => String.mk (pyStrip content.data)

/-- One `section_*.md` file of the output directory: its stem (file name
without extension) and its full text content. -/
structure SectionsFile where
  stem : String
  content : String
deriving DecidableEq

/-- The per-file name-matching loop shared by `_append_to_all_sections`
(agent2.py 306-312) and `_rebuild_all_sections` (agent2.py 330-336): scan
`SECTIONS` in order, skip identifiers not in `allowed` (`_rebuild` passes all
identifiers), and return the first `sid` with
`f"section_{sid}_{safe}" in name or name.startswith(f"section_{sid}_")`. -/
def findMatch (allowed : List String) (stem : List Char) : List (String × String) → Option String
  | [] => none
  | (sid, sname) :: rest =>
    if memB sid allowed then
      if isInfB ("section_" ++ sid ++ "_" ++ safeName sname).data stem
          || isPrefB ("section_" ++ sid ++ "_").data stem then
        some sid
      else findMatch allowed stem rest
    else findMatch allowed stem rest

/-- The `existing` dict built by `_append_to_all_sections` (agent2.py
303-312): fold over the globbed files, each matched file setting
`existing[sid]` to its header-stripped body (later files overwrite). -/
def buildExisting (allowed : List String) (files : List SectionsFile) : String → Option String :=
  files.foldl
    (fun m f =>
      match findMatch allowed f.stem.data SECTIONS with
      | some sid => fun s => if s = sid then some (stripHeaderBody f.content) else m s
      | none => m)
    (fun _ => none)

/-- Position of a string in a list (`list.index`); length of the list when
absent (only used after a membership test, as in the Python). -/
def idxOfStr (x : String) : List String → Nat
  | [] => 0
  | y :: t => if y = x then 0 else idxOfStr x t + 1

/-- `allowed_ids` (agent2.py 297-301): all section ids, or — when
`only_sections_up_to` is a non-empty id present in the taxonomy — the ids up
to and including it.  (`memB "" sectionIds = false`, so the Python falsiness
test on the empty string is subsumed by the membership test.) -/
def allowedIds : Option String → List String
  | none => sectionIds
  | some u => if memB u sectionIds then sectionIds.take (idxOfStr u sectionIds + 1) else sectionIds

/-- `existing` after the post-loop override `existing[section_id] = text`
(agent2.py 313). -/
def existingWith (files : List SectionsFile) (allowed : List String) (sectionId text : String) :
    String → Option String :=
  fun s => if s = sectionId then some text else buildExisting allowed files s

/-- The ordered list of `(sid, sname, body)` blocks that the write loop of
`_append_to_all_sections` (agent2.py 316-320) emits: the `SECTIONS` entries
with `sid in existing and sid in allowed_ids`. -/
def includedSections (files : List SectionsFile) (sectionId text : String) (allowed : List String) :
    List (String × String × String) :=
  SECTIONS.filterMap (fun p =>
    match existingWith files allowed sectionId text p.1 with
    | some body => if memB p.1 allowed then some (p.1, p.2, body) else none
    | none => none)

/-- The identifiers of the sections present in the rebuilt composite. -/
def includedIds (files : List SectionsFile) (sectionId text : String) (allowed : List String) :
    List String :=
  (includedSections files sectionId text allowed).map (fun t => t.1)

/-- `_append_to_all_sections(out_path, section_id, section_name, text,
only_sections_up_to)` (agent2.py 284-321): the full text written to
`all_sections.md`. -/
def append_to_all_sections (files : List SectionsFile) (sectionId text : String)
    (onlyUpTo : Option String) : String :=
  "# Prospectus Draft (Generated by Agent2)\n\n" ++
    String.join ((includedSections files sectionId text (allowedIds onlyUpTo)).map
      (fun t => "## " ++ t.2.1 ++ "\n\n" ++ t.2.2 ++ "\n\n"))

/-- Writing (or overwriting) one section file in the output directory. -/
def writeFile (stem content : String) : List SectionsFile → List SectionsFile
  | [] => [⟨stem, content⟩]
  | f :: rest => if f.stem = stem then ⟨stem, content⟩ :: rest else f :: writeFile stem content rest

/-- `run_agent2_single(section_id, ...)` (agent2.py 244-281) restricted to
the store-affecting core: the generated `text` (produced by the opaque
external call) is written to
`section_{sid}_{safe_name}.md` with its header line, and `all_sections.md`
is rebuilt via `_append_to_all_sections` with
`only_up_to = None if modification_instructions else section_id` (an empty
modification string is falsy in Python).  Returns the new store and the
composite text. -/
def run_agent2_single (files : List SectionsFile) (sectionId text : String)
    (modification : Option String) : List SectionsFile × String :=
  let sname := lookupName sectionId
  let files' := writeFile ("section_" ++ sectionId ++ "_" ++ safeName sname)
    ("# Section " ++ sectionId ++ ": " ++ sname ++ "\n\n" ++ text) files
  let onlyUpTo : Option String :=
    match modification with
    | some m => if m = "" then some sectionId else none
    | none => some sectionId
  (files', append_to_all_sections files' sectionId text onlyUpTo)

/-- Result of `f.read_text()` on a persisted section file: the content, or
an I/O error (corrupt/unreadable record). -/
inductive ReadResult where
  | ok (content : String)
  | ioError
deriving DecidableEq

/-- A file visible to `_rebuild_all_sections`'s glob, together with what
reading it yields. -/
structure StoredFile where
  stem : String
  result : ReadResult
deriving DecidableEq

/-- The file loop of `_rebuild_all_sections` (agent2.py 327-336): for each
globbed file, match its stem against `SECTIONS` (no `allowed` restriction:
every id passes the `memB` test); on a match, `f.read_text()` runs — an
unreadable file raises, which aborts the whole loop (there is no
`try`/`except`); on success the header-stripped body is recorded. -/
def rebuildGo (m : String → Option String) : List StoredFile → Except Unit (String → Option String)
  | [] => Except.ok m
  | f :: rest =>
    match findMatch sectionIds f.stem.data SECTIONS with
    | some sid =>
      match f.result with
      | ReadResult.ok content =>
        rebuildGo (fun s => if s = sid then some (stripHeaderBody content) else m s) rest
      | ReadResult.ioError => Except.error ()
    | none => rebuildGo m rest

/-- `_rebuild_all_sections(out_path)` (agent2.py 324-345): the text written
to `all_sections.md`, or the propagated read error. -/
def rebuild_all_sections (files : List StoredFile) : Except Unit String :=
  match rebuildGo (fun _ => none) files with
  | Except.error e => Except.error e
  | Except.ok ex =>
    Except.ok ("# Prospectus Draft (Generated by Agent2)\n\n" ++
      String.join (SECTIONS.filterMap (fun p =>
        match ex p.1 with
        | some body => some ("## Section " ++ p.1 ++ ": " ++ p.2 ++ "\n\n" ++ body ++ "\n\n")
        | none => none)))

/-- `run_agent2(...)` (agent2.py 348-413) restricted to its per-section
results: default to all sections, keep only requested ids present in the
taxonomy, and generate each in order (`valid_sections = [sid for sid in
sections if sid in [s[0] for s in SECTIONS]]`).  The model-caching branch
only changes which handle the opaque `gen` uses, not the result. -/
def run_agent2 (gen : String → String) (chunks : List Chunk) (reqMap : String → Option String)
    (sections : Option (List String)) (maxContextChars : Nat) : List (String × String) :=
  let secs := match sections with | none => sectionIds | some s => s
  let valid := secs.filter (fun sid => memB sid sectionIds)
  valid.map (fun sid => (sid, generate_section gen sid chunks reqMap maxContextChars none))

/-- The stems of the per-section output files `run_agent2` writes (agent2.py
401-408): one `section_{sid}_{safe_name}.md` per valid requested id. -/
def run_agent2_file_stems (sections : Option (List String)) : List String :=
  let secs := match sections with | none => sectionIds | some s => s
  let valid := secs.filter (fun sid => memB sid sectionIds)
  valid.map (fun sid => "section_" ++ sid ++ "_" ++ safeName (lookupName sid))

/-! ## Helper lemmas: chunker -/

theorem chunkGo_succ_eq (cleaned : List Char) (maxChars overlap fuel i : Nat) :
    chunkGo cleaned maxChars overlap (fuel + 1) i =
      if i < cleaned.length then
        if pyStrip (List.take (min (i + maxChars) cleaned.length - i) (List.drop i cleaned)) = [] then
          (if cleaned.length ≤ min (i + maxChars) cleaned.length then []
           else chunkGo cleaned maxChars overlap fuel (min (i + maxChars) cleaned.length - overlap))
        else
          pyStrip (List.take (min (i + maxChars) cleaned.length - i) (List.drop i cleaned)) ::
            (if cleaned.length ≤ min (i + maxChars) cleaned.length then []
             else chunkGo cleaned maxChars overlap fuel (min (i + maxChars) cleaned.length - overlap))
      else [] := rfl

theorem rawChunks_succ_eq (cleaned : List Char) (maxChars overlap fuel i : Nat) :
    rawChunks cleaned maxChars overlap (fuel + 1) i =
      if i < cleaned.length then
        List.take (min (i + maxChars) cleaned.length - i) (List.drop i cleaned) ::
          (if cleaned.length ≤ min (i + maxChars) cleaned.length then []
           else rawChunks cleaned maxChars overlap fuel (min (i + maxChars) cleaned.length - overlap))
      else [] := rfl

theorem chunkTrace_succ_eq (cleaned : List Char) (maxChars overlap fuel i : Nat) :
    chunkTrace cleaned maxChars overlap (fuel + 1) i =
      if i < cleaned.length then
        i :: (if cleaned.length ≤ min (i + maxChars) cleaned.length then []
              else chunkTrace cleaned maxChars overlap fuel (min (i + maxChars) cleaned.length - overlap))
      else [] := rfl

theorem dropOverlaps_cons (o : Nat) (x : List Char) (l : List (List Char)) :
    dropOverlaps o (x :: l) = List.drop o x ++ dropOverlaps o l := by
  simp [dropOverlaps]

theorem rawChunks_reconstruct (cleaned : List Char) (maxChars overlap : Nat)
    (hmo : overlap < maxChars) :
    ∀ fuel i, cleaned.length + 1 ≤ i + fuel →
      reconstruct overlap (rawChunks cleaned maxChars overlap fuel i) = cleaned.drop i := by
  intro fuel
  induction fuel with
  | zero =>
    intro i hle
    have h1 : cleaned.length ≤ i := by omega
    show reconstruct overlap [] = cleaned.drop i
    rw [show reconstruct overlap ([] : List (List Char)) = [] from rfl]
    exact (List.drop_eq_nil_of_le h1).symm
  | succ fuel ih =>
    intro i hle
    by_cases hi : i < cleaned.length
    · rw [rawChunks_succ_eq, if_pos hi]
      by_cases he : cleaned.length ≤ min (i + maxChars) cleaned.length
      · rw [if_pos he]
        have hemin : min (i + maxChars) cleaned.length = cleaned.length := by omega
        rw [hemin]
        show List.take (cleaned.length - i) (List.drop i cleaned) ++ dropOverlaps overlap [] =
          cleaned.drop i
        rw [show dropOverlaps overlap ([] : List (List Char)) = [] from rfl, List.append_nil]
        have hlen : (List.drop i cleaned).length = cleaned.length - i := List.length_drop ..
        rw [← hlen, List.take_length]
      · rw [if_neg he]
        have hee : i + maxChars < cleaned.length := by omega
        have he' : min (i + maxChars) cleaned.length = i + maxChars := by omega
        rw [he']
        cases fuel with
        | zero => omega
        | succ f =>
          have hj : i + maxChars - overlap < cleaned.length := by omega
          have hIH := ih (i + maxChars - overlap) (by omega)
          rw [rawChunks_succ_eq, if_pos hj] at hIH
          simp only [reconstruct] at hIH ⊢
          rw [rawChunks_succ_eq, if_pos hj]
          simp only [reconstruct, dropOverlaps_cons]
          have hob : overlap ≤ (List.take (min (i + maxChars - overlap + maxChars) cleaned.length -
              (i + maxChars - overlap)) (List.drop (i + maxChars - overlap) cleaned)).length := by
            rw [List.length_take, List.length_drop]
            omega
          rw [← List.drop_append_of_le_length hob, hIH, List.drop_drop]
          have hjo : i + maxChars - overlap + overlap = i + maxChars := by omega
          have him : i + maxChars - i = maxChars := by omega
          rw [hjo, him, ← List.drop_drop maxChars i cleaned]
          exact List.take_append_drop maxChars (List.drop i cleaned)
    · rw [rawChunks_succ_eq, if_neg hi]
      rw [show reconstruct overlap ([] : List (List Char)) = [] from rfl]
      exact (List.drop_eq_nil_of_le (Nat.le_of_not_lt hi)).symm

theorem chunkGo_eq_rawChunks (cleaned : List Char) (maxChars overlap : Nat) (hm : 1 ≤ maxChars) :
    ∀ fuel i, (∀ s ∈ rawChunks cleaned maxChars overlap fuel i, pyStrip s = s) →
      chunkGo cleaned maxChars overlap fuel i = rawChunks cleaned maxChars overlap fuel i := by
  intro fuel
  induction fuel with
  | zero => intro i _; rfl
  | succ fuel ih =>
    intro i hstrip
    by_cases hi : i < cleaned.length
    · rw [chunkGo_succ_eq, rawChunks_succ_eq, if_pos hi, if_pos hi]
      have ha : pyStrip (List.take (min (i + maxChars) cleaned.length - i) (List.drop i cleaned)) =
          List.take (min (i + maxChars) cleaned.length - i) (List.drop i cleaned) := by
        apply hstrip
        rw [rawChunks_succ_eq, if_pos hi]
        exact List.mem_cons_self _ _
      rw [ha]
      have hane : List.take (min (i + maxChars) cleaned.length - i) (List.drop i cleaned) ≠ [] := by
        intro hnil
        have hlen := congrArg List.length hnil
        rw [List.length_take, List.length_drop] at hlen
        simp at hlen
        omega
      rw [if_neg hane]
      by_cases he : cleaned.length ≤ min (i + maxChars) cleaned.length
      · rw [if_pos he, if_pos he]
      · rw [if_neg he, if_neg he]
        congr 1
        apply ih
        intro s hs
        apply hstrip
        rw [rawChunks_succ_eq, if_pos hi]
        refine List.mem_cons_of_mem _ ?_
        rw [if_neg he]
        exact hs
    · rw [chunkGo_succ_eq, rawChunks_succ_eq, if_neg hi, if_neg hi]

theorem chunkTrace_mem_le (cleaned : List Char) (maxChars overlap : Nat) (hmo : overlap < maxChars) :
    ∀ fuel i x, x ∈ chunkTrace cleaned maxChars overlap fuel i → i ≤ x := by
  intro fuel
  induction fuel with
  | zero => intro i x hx; exact absurd hx (List.not_mem_nil x)
  | succ fuel ih =>
    intro i x hx
    rw [chunkTrace_succ_eq] at hx
    by_cases hi : i < cleaned.length
    · rw [if_pos hi] at hx
      rcases List.mem_cons.1 hx with h | h
      · omega
      · by_cases he : cleaned.length ≤ min (i + maxChars) cleaned.length
        · rw [if_pos he] at h
          exact absurd h (List.not_mem_nil x)
        · rw [if_neg he] at h
          have hx2 := ih _ x h
          omega
    · rw [if_neg hi] at hx
      exact absurd hx (List.not_mem_nil x)

theorem chunkTrace_pairwise (cleaned : List Char) (maxChars overlap : Nat) (hmo : overlap < maxChars) :
    ∀ fuel i, List.Pairwise (fun a b => a < b) (chunkTrace cleaned maxChars overlap fuel i) := by
  intro fuel
  induction fuel with
  | zero => intro i; exact List.Pairwise.nil
  | succ fuel ih =>
    intro i
    rw [chunkTrace_succ_eq]
    by_cases hi : i < cleaned.length
    · rw [if_pos hi, List.pairwise_cons]
      constructor
      · intro x hx
        by_cases he : cleaned.length ≤ min (i + maxChars) cleaned.length
        · rw [if_pos he] at hx
          exact absurd hx (List.not_mem_nil x)
        · rw [if_neg he] at hx
          have h1 := chunkTrace_mem_le cleaned maxChars overlap hmo fuel _ x hx
          omega
      · by_cases he : cleaned.length ≤ min (i + maxChars) cleaned.length
        · rw [if_pos he]
          exact List.Pairwise.nil
        · rw [if_neg he]
          exact ih _
    · rw [if_neg hi]
      exact List.Pairwise.nil

theorem dropWhile_replicate_A (n : Nat) :
    List.dropWhile isPySpace (List.replicate n 'A') = List.replicate n 'A' := by
  cases n with
  | zero => rfl
  | succ k =>
    rw [List.replicate_succ, List.dropWhile_cons]
    simp [isPySpace]

theorem pyStrip_replicate_A (n : Nat) :
    pyStrip (List.replicate n 'A') = List.replicate n 'A' := by
  unfold pyStrip
  rw [dropWhile_replicate_A, List.reverse_replicate, dropWhile_replicate_A,
    List.reverse_replicate]

theorem crToNl_replicate_A (n : Nat) :
    crToNl (List.replicate n 'A') = List.replicate n 'A' := by
  unfold crToNl
  rw [List.map_replicate]
  norm_num
  exact Or.inr (by decide)

theorem dropSpaceTab_replicate_A (n : Nat) :
    dropSpaceTabBeforeNl (List.replicate n 'A') = List.replicate n 'A' := by
  induction n with
  | zero => rfl
  | succ k ih =>
    rw [List.replicate_succ]
    simp only [dropSpaceTabBeforeNl]
    rw [ih]
    norm_num
    exact fun h => absurd h (by decide)

theorem collapseNls_replicate_A (n : Nat) :
    collapseNls (List.replicate n 'A') = List.replicate n 'A' := by
  induction n with
  | zero => rfl
  | succ k ih =>
    rw [List.replicate_succ]
    simp only [collapseNls]
    rw [ih]
    norm_num
    exact fun h => absurd h (by decide)

theorem cleanText_replicate_A (n : Nat) :
    cleanText (List.replicate n 'A') = List.replicate n 'A' := by
  unfold cleanText
  rw [crToNl_replicate_A, pyStrip_replicate_A, dropSpaceTab_replicate_A,
    collapseNls_replicate_A, pyStrip_replicate_A]

theorem chunkGo_replicate_step (n maxChars overlap fuel i : Nat) (hi : i < n) (hm : 1 ≤ maxChars) :
    chunkGo (List.replicate n 'A') maxChars overlap (fuel + 1) i =
      List.replicate (min (i + maxChars) n - i) 'A' ::
        (if n ≤ min (i + maxChars) n then []
         else chunkGo (List.replicate n 'A') maxChars overlap fuel (min (i + maxChars) n - overlap)) := by
  rw [chunkGo_succ_eq, List.length_replicate, List.drop_replicate, List.take_replicate,
    if_pos hi]
  have hmin : min (min (i + maxChars) n - i) (n - i) = min (i + maxChars) n - i := by omega
  rw [hmin, pyStrip_replicate_A]
  have hne : List.replicate (min (i + maxChars) n - i) 'A' ≠ [] := by
    have h0 : min (i + maxChars) n - i ≠ 0 := by omega
    cases hmm : min (i + maxChars) n - i with
    | zero => exact absurd hmm h0
    | succ k => rw [List.replicate_succ]; exact List.cons_ne_nil _ _
  rw [if_neg hne]

theorem chunkAAA :
    chunk_text (List.replicate 2400 'A') 1200 200 =
      [List.replicate 1200 'A', List.replicate 1200 'A', List.replicate 400 'A'] := by
  rw [chunk_text, cleanText_replicate_A, List.length_replicate]
  rw [show (2400 + 1 : Nat) = 2400 + 1 from rfl]
  rw [chunkGo_replicate_step 2400 1200 200 2400 0 (by norm_num) (by norm_num)]
  norm_num
  rw [show (2400 : Nat) = 2399 + 1 from rfl,
    chunkGo_replicate_step 2400 1200 200 2399 1000 (by norm_num) (by norm_num)]
  norm_num
  rw [show (2399 : Nat) = 2398 + 1 from rfl,
    chunkGo_replicate_step 2400 1200 200 2398 2000 (by norm_num) (by norm_num)]
  norm_num

theorem chunkTrace_replicate_step (n maxChars overlap fuel i : Nat) (hi : i < n) :
    chunkTrace (List.replicate n 'A') maxChars overlap (fuel + 1) i =
      i :: (if n ≤ min (i + maxChars) n then []
            else chunkTrace (List.replicate n 'A') maxChars overlap fuel (min (i + maxChars) n - overlap)) := by
  rw [chunkTrace_succ_eq, List.length_replicate, if_pos hi]

theorem chunkAAA_trace :
    chunkTrace (cleanText (List.replicate 2400 'A')) 1200 200
      ((cleanText (List.replicate 2400 'A')).length + 1) 0 = [0, 1000, 2000] := by
  rw [cleanText_replicate_A, List.length_replicate]
  rw [chunkTrace_replicate_step 2400 1200 200 2400 0 (by norm_num)]
  norm_num
  rw [show (2400 : Nat) = 2399 + 1 from rfl,
    chunkTrace_replicate_step 2400 1200 200 2399 1000 (by norm_num)]
  norm_num
  rw [show (2399 : Nat) = 2398 + 1 from rfl,
    chunkTrace_replicate_step 2400 1200 200 2398 2000 (by norm_num)]
  norm_num

/-! ## Helper lemmas: agent2 store and assembler -/

theorem memB_iff (x : String) : ∀ l : List String, memB x l = true ↔ x ∈ l := by
  intro l
  induction l with
  | nil => simp [memB]
  | cons y t ih =>
    by_cases h : x = y
    · simp [memB, h]
    · simp [memB, h, ih]

theorem mem_take_idxOfStr (x : String) :
    ∀ l : List String, x ∈ l → x ∈ l.take (idxOfStr x l + 1) := by
  intro l
  induction l with
  | nil => intro h; exact absurd h (List.not_mem_nil x)
  | cons y t ih =>
    intro h
    by_cases hxy : y = x
    · rw [idxOfStr, if_pos hxy]
      subst hxy
      exact List.mem_cons_self _ _
    · rw [idxOfStr, if_neg hxy]
      rcases List.mem_cons.1 h with h1 | h1
      · exact absurd h1.symm hxy
      · rw [List.take_succ_cons]
        exact List.mem_cons_of_mem _ (ih h1)

theorem idxOfStr_lt_of_mem_take (x : String) :
    ∀ (l : List String) (n : Nat), x ∈ l.take n → idxOfStr x l < n := by
  intro l
  induction l with
  | nil => intro n h; simp at h
  | cons y t ih =>
    intro n h
    cases n with
    | zero => simp at h
    | succ k =>
      rw [List.take_succ_cons] at h
      by_cases hxy : y = x
      · rw [idxOfStr, if_pos hxy]; omega
      · rw [idxOfStr, if_neg hxy]
        rcases List.mem_cons.1 h with h1 | h1
        · exact absurd h1.symm hxy
        · have := ih k h1
          omega

theorem sumLen_cons (c : Chunk) (l : List Chunk) :
    sumLen (c :: l) = (c.text.getD "").length + sumLen l := by
  simp [sumLen]

theorem budgetTake_le (maxChars : Nat) :
    ∀ (l : List Chunk) (total : Nat), total ≤ maxChars →
      total + sumLen (budgetTake maxChars l total) ≤ maxChars := by
  intro l
  induction l with
  | nil => intro total h; simp [budgetTake, sumLen]; omega
  | cons c rest ih =>
    intro total h
    rw [budgetTake]
    by_cases hc : maxChars < total + (c.text.getD "").length
    · rw [if_pos hc]
      simp [sumLen]
      omega
    · rw [if_neg hc, sumLen_cons]
      have := ih (total + (c.text.getD "").length) (by omega)
      omega

theorem budgetTake_stop (maxChars : Nat) :
    ∀ (l : List Chunk) (total : Nat), ∃ k, budgetTake maxChars l total = l.take k ∧
      (l.drop k = [] ∨ ∃ c t, l.drop k = c :: t ∧
        maxChars < total + sumLen (l.take k) + (c.text.getD "").length) := by
  intro l
  induction l with
  | nil =>
    intro total
    exact ⟨0, rfl, Or.inl rfl⟩
  | cons c rest ih =>
    intro total
    rw [budgetTake]
    by_cases hc : maxChars < total + (c.text.getD "").length
    · refine ⟨0, by rw [if_pos hc]; rfl, Or.inr ⟨c, rest, rfl, ?_⟩⟩
      simp [sumLen]
      omega
    · rcases ih (total + (c.text.getD "").length) with ⟨k, hk1, hk2⟩
      refine ⟨k + 1, ?_, ?_⟩
      · rw [if_neg hc, List.take_succ_cons, hk1]
      · rw [List.drop_succ_cons]
        rcases hk2 with h | ⟨c', t', he, hgt⟩
        · exact Or.inl h
        · refine Or.inr ⟨c', t', he, ?_⟩
          rw [List.take_succ_cons, sumLen_cons]
          omega

theorem get_chunks_eq (chunks : List Chunk) (sectionId : String) (maxChars : Nat) :
    get_chunks_for_section chunks sectionId maxChars =
      budgetTake maxChars (chunks.filter (chunkMatches sectionId)) 0 := by
  cases chunks with
  | nil => rfl
  | cons c rest => rw [get_chunks_for_section, if_neg (by simp)]

theorem filter_eq_nil_imp (chunks : List Chunk) (sectionId : String)
    (h : chunks.filter (chunkMatches sectionId) = []) (maxChars : Nat) :
    get_chunks_for_section chunks sectionId maxChars = [] := by
  rw [get_chunks_eq, h]
  rfl

theorem writeFile_idem (s c : String) : ∀ l : List SectionsFile,
    writeFile s c (writeFile s c l) = writeFile s c l := by
  intro l
  induction l with
  | nil => simp [writeFile]
  | cons f rest ih =>
    by_cases h : f.stem = s
    · rw [writeFile, if_pos h, writeFile, if_pos rfl]
    · rw [writeFile, if_neg h, writeFile, if_neg h, ih]

theorem rebuildGo_skip_unmatched (f : StoredFile)
    (hf : findMatch sectionIds f.stem.data SECTIONS = none) :
    ∀ (pre : List StoredFile) (m : String → Option String) (post : List StoredFile),
      rebuildGo m (pre ++ f :: post) = rebuildGo m (pre ++ post) := by
  intro pre
  induction pre with
  | nil =>
    intro m post
    rw [List.nil_append, List.nil_append]
    simp only [rebuildGo, hf]
  | cons g rest ih =>
    intro m post
    rw [List.cons_append, List.cons_append]
    cases hg : findMatch sectionIds g.stem.data SECTIONS with
    | none => simp only [rebuildGo, hg]; exact ih m post
    | some sid =>
      cases hgr : g.result with
      | ok content => simp only [rebuildGo, hg, hgr]; exact ih _ post
      | ioError => simp only [rebuildGo, hg, hgr]

theorem rebuildGo_error :
    ∀ (files : List StoredFile) (m : String → Option String) (f : StoredFile),
      f ∈ files → (∃ sid, findMatch sectionIds f.stem.data SECTIONS = some sid) →
      f.result = ReadResult.ioError → rebuildGo m files = Except.error () := by
  intro files
  induction files with
  | nil => intro m f hmem _ _; exact absurd hmem (List.not_mem_nil f)
  | cons g rest ih =>
    intro m f hmem hmatch hres
    rcases List.mem_cons.1 hmem with h | h
    · subst h
      rcases hmatch with ⟨sid, hsid⟩
      simp only [rebuildGo, hsid, hres]
    · cases hg : findMatch sectionIds g.stem.data SECTIONS with
      | none =>
        simp only [rebuildGo, hg]
        exact ih m f h hmatch hres
      | some sid =>
        cases hgr : g.result with
        | ok content =>
          simp only [rebuildGo, hg, hgr]
          exact ih _ f h hmatch hres
        | ioError => simp only [rebuildGo, hg, hgr]

/-! ## Claim theorems -/

/-- Claim C1, counterexample: the claim as stated fails on the code.  For the
text `"a b"` with `max_chars = 2 > overlap = 0 ≥ 0` (valid parameters), the
normalized text is `"a b"` but `chunk_text` strips each window slice, so the
fragments are `["a", "b"]` and concatenating them with the (empty) overlaps
removed gives `"ab"`, not the normalized text: the space at the window
boundary is lost. -/
theorem chunk_text_reconstruct_cex :
    (0 : Nat) < 2 ∧
      reconstruct 0 (chunk_text ("a b".data) 2 0) ≠ cleanText ("a b".data) := by
  constructor
  · decide
  · decide

/-- Claim C1, amended: for every text and `max_chars > overlap ≥ 0`, the
fragments of `chunk_text` are exactly the raw left-to-right window slices
(whose start cursors are strictly increasing), and concatenating them with
the overlap regions removed reconstructs the normalized text exactly,
PROVIDED every window slice is already free of leading/trailing whitespace
(so the per-slice `strip()` is the identity and no slice is dropped as
empty); without that proviso, whitespace at window boundaries is lost (see
the counterexample). -/
theorem chunk_text_reconstruct_amended (text : List Char) (maxChars overlap : Nat)
    (h1 : overlap < maxChars)
    (h2 : ∀ s ∈ rawChunks (cleanText text) maxChars overlap ((cleanText text).length + 1) 0,
      pyStrip s = s) :
    chunk_text text maxChars overlap =
        rawChunks (cleanText text) maxChars overlap ((cleanText text).length + 1) 0 ∧
      List.Pairwise (fun a b => a < b)
        (chunkTrace (cleanText text) maxChars overlap ((cleanText text).length + 1) 0) ∧
      reconstruct overlap (chunk_text text maxChars overlap) = cleanText text := by
  have hg := chunkGo_eq_rawChunks (cleanText text) maxChars overlap (by omega)
    ((cleanText text).length + 1) 0 h2
  refine ⟨hg, chunkTrace_pairwise (cleanText text) maxChars overlap h1 _ _, ?_⟩
  rw [show chunk_text text maxChars overlap =
    chunkGo (cleanText text) maxChars overlap ((cleanText text).length + 1) 0 from rfl, hg]
  have hr := rawChunks_reconstruct (cleanText text) maxChars overlap h1
    ((cleanText text).length + 1) 0 (by omega)
  rw [List.drop_zero] at hr
  exact hr

/-- Witness for `chunk_text_reconstruct_amended` at the concrete text
`"abcdef"` with `max_chars = 4`, `overlap = 1`: the fragments are
`["abcd", "def"]` and reconstruction with the overlap removed gives back
`"abcdef"`. -/
theorem chunk_text_reconstruct_amended_witness :
    reconstruct 1 (chunk_text ("abcdef".data) 4 1) = cleanText ("abcdef".data) :=
  (chunk_text_reconstruct_amended ("abcdef".data) 4 1 (by decide) (by decide)).2.2

/-- Claim C2, counterexample: chunking 2400 copies of `"A"` with
`max_chars = 1200, overlap = 200` does NOT yield fragments of lengths
`1200, 1200, 200`: the third slice is `cleaned[2000:2400]`, which has 400
characters, not 200. -/
theorem chunk_text_2400_cex :
    (chunk_text (List.replicate 2400 'A') 1200 200).map List.length ≠ [1200, 1200, 200] := by
  rw [chunkAAA]
  simp

/-- Claim C2, amended: chunking the 2400-character string `"A" × 2400` with
`max_chars = 1200, overlap = 200` yields exactly 3 fragments whose lengths
are 1200, 1200 and 400, the loop cursor taking the values 0, 1000, 2000 at
the starts of the three iterations (after the third slice the code sets the
cursor to `2400 - 200 = 2200`, not 2400, and then breaks). -/
theorem chunk_text_2400_amended :
    (chunk_text (List.replicate 2400 'A') 1200 200).map List.length = [1200, 1200, 400] ∧
      chunkTrace (cleanText (List.replicate 2400 'A')) 1200 200
        ((cleanText (List.replicate 2400 'A')).length + 1) 0 = [0, 1000, 2000] := by
  refine ⟨?_, chunkAAA_trace⟩
  rw [chunkAAA]
  simp

/-- Claim C3: `chunk_text` has NO guard for `overlap ≥ max_chars`.  On the
text `"ab"` (normalized to `['a', 'b']`) with `max_chars = 1, overlap = 1`,
the end of the first slice is `1 < 2`, so the loop does not break, and the
cursor is reset to `1 - 1 = 0`: for every number `n` of loop iterations the
loop is still running, has emitted `n` copies of the fragment `"a"`, and the
cursor has stayed at 0 on every iteration — the Python `while` loop never
terminates and no error is raised, contradicting the claimed fail-fast
behaviour. -/
theorem chunk_text_overlap_ge_max_diverges :
    ∀ n : Nat, chunkGo (cleanText ("ab".data)) 1 1 n 0 = List.replicate n ['a'] ∧
      chunkTrace (cleanText ("ab".data)) 1 1 n 0 = List.replicate n 0 := by
  have hc : cleanText ("ab".data) = ['a', 'b'] := by decide
  intro n
  rw [hc]
  induction n with
  | zero => exact ⟨rfl, rfl⟩
  | succ k ih =>
    refine ⟨?_, ?_⟩
    · rw [show chunkGo ['a', 'b'] 1 1 (k + 1) 0 = ['a'] :: chunkGo ['a', 'b'] 1 1 k 0 from rfl,
        ih.1, List.replicate_succ]
    · rw [show chunkTrace ['a', 'b'] 1 1 (k + 1) 0 = 0 :: chunkTrace ['a', 'b'] 1 1 k 0 from rfl,
        ih.2, List.replicate_succ]

/-- Claim C4: for any persisted store, section id and text, rebuilding the
composite in prefix mode with `up_to_id` equal to the highest-position
identifier of the output taxonomy (`"GlobalOfferingStructure"`, the last
entry of `SECTIONS`) produces exactly the same composite document as
rebuilding in full mode (`only_sections_up_to = None`): the allowed-id set
of the prefix is the whole taxonomy. -/
theorem append_upto_last_eq_full (files : List SectionsFile) (sectionId text : String) :
    append_to_all_sections files sectionId text (some "GlobalOfferingStructure") =
      append_to_all_sections files sectionId text none := by
  have h : allowedIds (some "GlobalOfferingStructure") = allowedIds none := by decide
  rw [append_to_all_sections, append_to_all_sections, h]

/-- Claim C5: whatever else is persisted in the store, after section `X` is
(re)generated, rebuilding in prefix mode with `up_to_id = X` yields a
composite that contains section `X` and does not contain any section `Y`
whose canonical position is greater than that of `X` — even when a record
for `Y` is persisted.  `includedIds` is the ordered list of section
identifiers whose heading/body blocks `_append_to_all_sections` writes into
`all_sections.md`. -/
theorem upto_mode_excludes_later_sections (files : List SectionsFile) (X Y text : String)
    (hX : X ∈ sectionIds) (hY : Y ∈ sectionIds)
    (hlt : idxOfStr X sectionIds < idxOfStr Y sectionIds)
    (hp : ∃ f ∈ files, findMatch sectionIds f.stem.data SECTIONS = some Y) :
    X ∈ includedIds files X text (allowedIds (some X)) ∧
      Y ∉ includedIds files X text (allowedIds (some X)) := by
  have hmB : memB X sectionIds = true := (memB_iff X sectionIds).2 hX
  have hallow : allowedIds (some X) = sectionIds.take (idxOfStr X sectionIds + 1) := by
    rw [allowedIds, if_pos hmB]
  have hXal : X ∈ allowedIds (some X) := by
    rw [hallow]
    exact mem_take_idxOfStr X sectionIds hX
  constructor
  · rcases List.mem_map.1 hX with ⟨p, hpmem, hp1⟩
    refine List.mem_map.2 ⟨(X, p.2, text), ?_, rfl⟩
    refine List.mem_filterMap.2 ⟨p, hpmem, ?_⟩
    have hex : existingWith files (allowedIds (some X)) X text p.1 = some text := by
      rw [existingWith, if_pos hp1]
    rw [hex]
    show (if memB p.1 (allowedIds (some X)) = true then some (p.1, p.2, text) else none) =
      some (X, p.2, text)
    rw [hp1, if_pos ((memB_iff X (allowedIds (some X))).2 hXal)]
  · intro hmem
    rcases List.mem_map.1 hmem with ⟨t, htmem, ht1⟩
    rcases List.mem_filterMap.1 htmem with ⟨p, hpmem, hfp⟩
    split at hfp
    next body heq =>
      split at hfp
      next hcond =>
        have ht2 : (p.1, p.2, body) = t := Option.some.inj hfp
        have hY1 : p.1 = Y := by rw [← ht2] at ht1; exact ht1
        rw [hY1] at hcond
        have hYal : Y ∈ allowedIds (some X) := (memB_iff Y (allowedIds (some X))).1 hcond
        rw [hallow] at hYal
        have := idxOfStr_lt_of_mem_take Y sectionIds (idxOfStr X sectionIds + 1) hYal
        omega
      next hcond => exact absurd hfp (by simp)
    next heq => exact absurd hfp (by simp)

/-- Witness for `upto_mode_excludes_later_sections`: with a persisted
`RiskFactors` file in the store, rebuilding with `up_to_id = "Summary"`
includes `Summary` (position 2) and excludes `RiskFactors` (position 6). -/
theorem upto_mode_excludes_later_sections_witness :
    "Summary" ∈ includedIds
        [⟨"section_RiskFactors_Risk_Factors", "# Section RiskFactors: Risk Factors\n\nrisk body"⟩]
        "Summary" "summary text" (allowedIds (some "Summary")) ∧
      "RiskFactors" ∉ includedIds
        [⟨"section_RiskFactors_Risk_Factors", "# Section RiskFactors: Risk Factors\n\nrisk body"⟩]
        "Summary" "summary text" (allowedIds (some "Summary")) :=
  upto_mode_excludes_later_sections _ "Summary" "RiskFactors" "summary text" (by decide)
    (by decide) (by decide)
    ⟨⟨"section_RiskFactors_Risk_Factors", "# Section RiskFactors: Risk Factors\n\nrisk body"⟩,
      List.mem_cons_self _ _, by rfl⟩

/-- Claim C6: for every fragment pool, output-section id and character
budget, `get_chunks_for_section` (a) returns chunks whose total text length
never exceeds the budget, (b) returns only chunks whose fine-grained
category is among the relevant categories of the section
(`chunkMatches`), and (c) returns a prefix of the category-filtered pool
(hence preserves the pool's original order) that ends either because the
filtered pool was exhausted or at the first chunk that would exceed the
budget — that chunk and everything after it is dropped, never skipped
over. -/
theorem get_chunks_for_section_spec (chunks : List Chunk) (sectionId : String) (maxChars : Nat) :
    sumLen (get_chunks_for_section chunks sectionId maxChars) ≤ maxChars ∧
      (∀ c ∈ get_chunks_for_section chunks sectionId maxChars, chunkMatches sectionId c = true) ∧
      (∃ k, get_chunks_for_section chunks sectionId maxChars =
          (chunks.filter (chunkMatches sectionId)).take k ∧
        ((chunks.filter (chunkMatches sectionId)).drop k = [] ∨
          ∃ c t, (chunks.filter (chunkMatches sectionId)).drop k = c :: t ∧
            maxChars < sumLen ((chunks.filter (chunkMatches sectionId)).take k) +
              (c.text.getD "").length)) := by
  rw [get_chunks_eq]
  refine ⟨?_, ?_, ?_⟩
  · have := budgetTake_le maxChars (chunks.filter (chunkMatches sectionId)) 0 (Nat.zero_le _)
    omega
  · intro c hc
    rcases budgetTake_stop maxChars (chunks.filter (chunkMatches sectionId)) 0 with ⟨k, hk1, _⟩
    rw [hk1] at hc
    exact (List.mem_filter.1 (List.mem_of_mem_take hc)).2
  · rcases budgetTake_stop maxChars (chunks.filter (chunkMatches sectionId)) 0 with ⟨k, hk1, hk2⟩
    refine ⟨k, hk1, ?_⟩
    rcases hk2 with h | ⟨c, t, he, hgt⟩
    · exact Or.inl h
    · exact Or.inr ⟨c, t, he, by omega⟩

/-- Witness for `get_chunks_for_section_spec` on a concrete pool with a
too-large first relevant chunk and budget 6. -/
theorem get_chunks_for_section_spec_witness :
    sumLen (get_chunks_for_section
      [⟨some "C", some "r.xlsx", some "risk data"⟩, ⟨some "A", some "b.xlsx", some "biz"⟩]
      "RiskFactors" 6) ≤ 6 :=
  (get_chunks_for_section_spec
    [⟨some "C", some "r.xlsx", some "risk data"⟩, ⟨some "A", some "b.xlsx", some "biz"⟩]
    "RiskFactors" 6).1

/-- Claim C7, counterexample: with a readable persisted `Summary` record and
an unreadable (`ioError`) persisted `RiskFactors` record, the rebuild aborts
with the propagated read error: the corrupt record is NOT skipped, and it
prevents the remaining section (`Summary`) from appearing in any composite
(no composite is produced at all), because `_rebuild_all_sections` has no
`try`/`except` around `f.read_text()`. -/
theorem rebuild_all_sections_error_cex :
    rebuild_all_sections
      [⟨"section_Summary_Summary", ReadResult.ok "# Section Summary: Summary\n\nsummary body"⟩,
       ⟨"section_RiskFactors_Risk_Factors", ReadResult.ioError⟩] = Except.error () := rfl

/-- Claim C7, amended: during composite rebuild, a persisted file whose name
matches no output-section identifier is ignored (removing it anywhere in the
store leaves the rebuild result unchanged); but a matched record whose read
fails is NOT treated as absent: the error aborts the whole rebuild and no
composite is produced, however many healthy records are present. -/
theorem rebuild_all_sections_amended :
    (∀ (pre post : List StoredFile) (f : StoredFile),
        findMatch sectionIds f.stem.data SECTIONS = none →
        rebuild_all_sections (pre ++ f :: post) = rebuild_all_sections (pre ++ post)) ∧
      (∀ (files : List StoredFile) (f : StoredFile),
        f ∈ files → (∃ sid, findMatch sectionIds f.stem.data SECTIONS = some sid) →
        f.result = ReadResult.ioError →
        rebuild_all_sections files = Except.error ()) := by
  constructor
  · intro pre post f hf
    rw [rebuild_all_sections, rebuild_all_sections, rebuildGo_skip_unmatched f hf pre _ post]
  · intro files f hmem hmatch hres
    rw [rebuild_all_sections, rebuildGo_error files (fun _ => none) f hmem hmatch hres]

/-- Witness for `rebuild_all_sections_amended`: an unmatched `summary_notes`
file is ignored, and a single unreadable `Glossary` record aborts the
rebuild. -/
theorem rebuild_all_sections_amended_witness :
    rebuild_all_sections [⟨"summary_notes", ReadResult.ok "scratch"⟩] =
        rebuild_all_sections [] ∧
      rebuild_all_sections [⟨"section_Glossary_Glossary_of_Technical_Terms", ReadResult.ioError⟩] =
        Except.error () := by
  constructor
  · exact rebuild_all_sections_amended.1 [] [] ⟨"summary_notes", ReadResult.ok "scratch"⟩ (by rfl)
  · exact rebuild_all_sections_amended.2
      [⟨"section_Glossary_Glossary_of_Technical_Terms", ReadResult.ioError⟩]
      ⟨"section_Glossary_Glossary_of_Technical_Terms", ReadResult.ioError⟩
      (List.mem_cons_self _ _) ⟨"Glossary", by rfl⟩ rfl

/-- Claim C8: when the category-filtered fragment pool for a section is
empty, `generate_section` returns the fixed placeholder naming the section
id and display name and stating that a manual draft is required, and its
result does not depend on the external generation function (or on the model
parameters, the requirements map, the budget, or the modification
instructions): the external call is never consulted. -/
theorem generate_section_empty_placeholder (gen gen' : String → String) (sectionId : String)
    (chunks : List Chunk) (reqMap reqMap' : String → Option String) (maxC maxC' : Nat)
    (mi mi' : Option String)
    (h : chunks.filter (chunkMatches sectionId) = []) :
    generate_section gen sectionId chunks reqMap maxC mi =
        "[Section " ++ sectionId ++ ": " ++ lookupName sectionId ++
          "]\n\nNo RAG chunks available for this section. Manual draft required." ∧
      generate_section gen sectionId chunks reqMap maxC mi =
        generate_section gen' sectionId chunks reqMap' maxC' mi' := by
  have h1 : generate_section gen sectionId chunks reqMap maxC mi =
      "[Section " ++ sectionId ++ ": " ++ lookupName sectionId ++
        "]\n\nNo RAG chunks available for this section. Manual draft required." := by
    rw [generate_section]
    rw [filter_eq_nil_imp chunks sectionId h maxC]
    rfl
  have h2 : generate_section gen' sectionId chunks reqMap' maxC' mi' =
      "[Section " ++ sectionId ++ ": " ++ lookupName sectionId ++
        "]\n\nNo RAG chunks available for this section. Manual draft required." := by
    rw [generate_section]
    rw [filter_eq_nil_imp chunks sectionId h maxC']
    rfl
  exact ⟨h1, h1.trans h2.symm⟩

/-- Witness for `generate_section_empty_placeholder`: a pool holding only a
category-`A` chunk is irrelevant to `RiskFactors` (relevant categories
`["C"]`), so generation returns the placeholder. -/
theorem generate_section_empty_placeholder_witness :
    generate_section (fun _ => "GEN-A") "RiskFactors"
        [⟨some "A", some "b.xlsx", some "biz data"⟩] (fun _ => none) 15000 none =
      "[Section RiskFactors: " ++ lookupName "RiskFactors" ++
        "]\n\nNo RAG chunks available for this section. Manual draft required." :=
  (generate_section_empty_placeholder (fun _ => "GEN-A") (fun _ => "GEN-B") "RiskFactors"
    [⟨some "A", some "b.xlsx", some "biz data"⟩] (fun _ => none) (fun _ => none) 15000 9000
    none (some "edit") (by decide)).1

/-- Claim C9: running the single-section pipeline twice with the same
section id and the same text leaves both the persisted store and the rebuilt
composite byte-identical to a single run: the second write replaces the
section file with identical content, so the rebuild sees the same store. -/
theorem run_agent2_single_idempotent (files : List SectionsFile) (sectionId text : String) :
    run_agent2_single (run_agent2_single files sectionId text none).1 sectionId text none =
      run_agent2_single files sectionId text none := by
  simp only [run_agent2_single, writeFile_idem]

/-- Claim C10: `run_agent2` silently drops requested section identifiers
that are not in the output taxonomy: its results are the same as if the
request list had been pre-filtered to the valid ids, every produced
`(section_id, text)` pair has a taxonomy id, and the per-section output
files written are exactly one per valid requested id — an unknown id never
raises and never yields an output file. -/
theorem run_agent2_filters_unknown (gen : String → String) (chunks : List Chunk)
    (reqMap : String → Option String) (secs : List String) (maxC : Nat) :
    run_agent2 gen chunks reqMap (some secs) maxC =
        run_agent2 gen chunks reqMap (some (secs.filter (fun sid => memB sid sectionIds))) maxC ∧
      (∀ p ∈ run_agent2 gen chunks reqMap (some secs) maxC, p.1 ∈ sectionIds) ∧
      run_agent2_file_stems (some secs) =
        (secs.filter (fun sid => memB sid sectionIds)).map
          (fun sid => "section_" ++ sid ++ "_" ++ safeName (lookupName sid)) := by
  refine ⟨?_, ?_, rfl⟩
  · rw [run_agent2, run_agent2]
    simp only [List.filter_filter, Bool.and_self]
  · intro p hp
    rw [run_agent2] at hp
    rcases List.mem_map.1 hp with ⟨sid, hsid, hpe⟩
    have := (List.mem_filter.1 hsid).2
    rw [← hpe]
    exact (memB_iff sid sectionIds).1 this

/-- Witness for `run_agent2_filters_unknown`: requesting
`["Business", "ZZZ"]` produces the same results as requesting the filtered
list (the unknown id `"ZZZ"` is dropped). -/
theorem run_agent2_filters_unknown_witness :
    run_agent2 (fun _ => "txt") [] (fun _ => none) (some ["Business", "ZZZ"]) 100 =
      run_agent2 (fun _ => "txt") [] (fun _ => none)
        (some (["Business", "ZZZ"].filter (fun sid => memB sid sectionIds))) 100 :=
  (run_agent2_filters_unknown (fun _ => "txt") [] (fun _ => none) ["Business", "ZZZ"] 100).1
